import Mathlib

/-!
Verification development for the Mobula repository.

The repository has two components:

* a tick collector (`fetchData` in the collector script): it walks the
  contract's transaction ledger in index order, fetches per-timestamp
  OHLC data and the `tVol` volume indicator, maintains running daily and
  all-time cumulative volume accumulators, and in a second pass attaches
  to every row the finalized daily volume total;

* an HTTP server whose core is `aggregateCandleData`: it folds CSV
  records into fixed-width OHLCV candle buckets, either in floating
  point ("approximate") or in `BigInt` ("exact") precision, and serves
  the result from three endpoints keyed by a `timeframeMap` vocabulary.

This file is a shallow embedding of the above.  Numbers are embedded as
follows: JavaScript `BigInt` values become `Int`; JavaScript `number`
values that the program keeps integral (timestamps, bucket keys) become
`Int`; other JavaScript `number` values (the "approximate" mode OHLCV
fields) are modelled as exact rationals `ℚ` — the approximate-mode
claims proved here are purely order-theoretic and structural, so they
are insensitive to rounding.  Fallible lookups become `Option`.
-/

/-! ### JavaScript string-to-number parsing, as used by the server

The server parses CSV fields with `parseInt(s, 10)`, `parseFloat(s)` and
`BigInt(s)`.  Each is modelled on `String`, returning `none` where the
JavaScript original yields `NaN` (for `parseInt`/`parseFloat`) or throws
(for `BigInt`).  The models cover decimal literals: the `Infinity`
literal of `parseFloat` and the `0x`/`0o`/`0b` forms of `BigInt` are not
modelled (no record produced by the collector, and no input used in a
theorem below, contains them). -/

def jsWhitespace (c : Char) : Bool :=
  c = ' ' || c = '\t' || c = '\n' || c = '\r' || c = '\x0b' || c = '\x0c'

def digitVal (c : Char) : Nat := c.toNat - 48

def digitsToNat (ds : List Char) : Nat :=
  ds.foldl (fun a c => a * 10 + digitVal c) 0

/-- Model of JavaScript `parseInt(s, 10)`: skip leading whitespace, read an
optional sign and then the longest prefix of decimal digits; `none` models
the `NaN` result when no digit is found. -/
def parseIntJS (s : String) : Option Int :=
  let cs := s.data.dropWhile jsWhitespace
  let p : Int × List Char :=
    match cs with
    | '-' :: rest => (-1, rest)
    | '+' :: rest => (1, rest)
    | _ => (1, cs)
  let ds := p.2.takeWhile Char.isDigit
  if ds.isEmpty then none else some (p.1 * (digitsToNat ds : Int))

/-- Model of JavaScript `BigInt(s)` on strings (ECMAScript StringToBigInt):
trim whitespace on both ends; the empty remainder denotes `0n`; otherwise
the whole remainder must be an optionally signed decimal digit string,
else the conversion throws (`none`). -/
def stringToBigInt (s : String) : Option Int :=
  let cs := ((s.data.dropWhile jsWhitespace).reverse.dropWhile jsWhitespace).reverse
  match cs with
  | [] => some 0
  | _ =>
    let p : Int × List Char :=
      match cs with
      | '-' :: rest => (-1, rest)
      | '+' :: rest => (1, rest)
      | _ => (1, cs)
    if !p.2.isEmpty && p.2.all Char.isDigit then
      some (p.1 * (digitsToNat p.2 : Int))
    else none

/-- The discrete result of JavaScript `parseFloat(s)` before valuation:
sign, integer-part value, fraction-part value, fraction length, optional
exponent.  Skip leading whitespace and read the longest prefix that is a
decimal literal (optional sign, integer digits, optional fraction,
optional well-formed exponent); `none` models `NaN`. -/
def parseFloatParts (s : String) : Option (Int × Nat × Nat × Nat × Option Int) :=
  let cs := s.data.dropWhile jsWhitespace
  let p : Int × List Char :=
    match cs with
    | '-' :: rest => (-1, rest)
    | '+' :: rest => (1, rest)
    | _ => (1, cs)
  let ip := p.2.takeWhile Char.isDigit
  let cs2 := p.2.drop ip.length
  let q : List Char × List Char :=
    match cs2 with
    | '.' :: rest => (rest.takeWhile Char.isDigit, rest.drop (rest.takeWhile Char.isDigit).length)
    | _ => ([], cs2)
  if ip.isEmpty && q.1.isEmpty then none
  else
    let expVal : Option Int :=
      match q.2 with
      | e :: rest =>
        if e = 'e' || e = 'E' then
          let r : Int × List Char :=
            match rest with
            | '-' :: r0 => (-1, r0)
            | '+' :: r0 => (1, r0)
            | _ => (1, rest)
          let eds := r.2.takeWhile Char.isDigit
          if eds.isEmpty then none else some (r.1 * (digitsToNat eds : Int))
        else none
      | [] => none
    some (p.1, digitsToNat ip, digitsToNat q.1, q.1.length, expVal)

/-- The rational value denoted by a parsed decimal literal. -/
def ratOfParts (p : Int × Nat × Nat × Nat × Option Int) : ℚ :=
  let base : ℚ := (p.1 : ℚ) * ((p.2.1 : ℚ) + (p.2.2.1 : ℚ) / (10 : ℚ) ^ p.2.2.2.1)
  match p.2.2.2.2 with
  | none => base
  | some e => base * (if 0 ≤ e then ((10 : ℚ) ^ e.toNat) else 1 / (10 : ℚ) ^ (-e).toNat)

/-- Model of JavaScript `parseFloat(s)`; `none` models `NaN`.  The numeric
value is kept as an exact rational rather than an IEEE double; see the
file header. -/
def parseFloatJS (s : String) : Option ℚ := (parseFloatParts s).map ratOfParts

theorem ratOfParts_digits (sg : Int) (n : Nat) :
    ratOfParts (sg, n, 0, 0, none) = (sg : ℚ) * (n : ℚ) := by
  unfold ratOfParts
  norm_num

theorem parseFloatJS_digitsOnly (s : String) (n : Nat)
    (h : parseFloatParts s = some (1, n, 0, 0, none)) :
    parseFloatJS s = some ((n : Nat) : ℚ) := by
  unfold parseFloatJS
  rw [h, Option.map_some', ratOfParts_digits]
  norm_num

/-! ### Association lists modelling JavaScript objects and `Map`s

A JavaScript object used as a dictionary (`aggregatedCandles`) and an ES
`Map` (`dailyVolumeMap`) both keep one value per key, updated in place,
with new keys appended in insertion order.  `alUpdate m k init upd`
models `m[k] = m[k] === undefined ? init : upd(m[k])`. -/

def alUpdate {κ α : Type} [DecidableEq κ] (m : List (κ × α)) (k : κ) (init : α) (upd : α → α) : List (κ × α) :=
  match m with
  | [] => [(k, init)]
  | (k', v) :: rest =>
    if k' = k then (k', upd v) :: rest
    else (k', v) :: alUpdate rest k init upd

def alLookup {κ α : Type} [DecidableEq κ] (m : List (κ × α)) (k : κ) : Option α :=
  match m with
  | [] => none
  | (k', v) :: rest => if k' = k then some v else alLookup rest k

/-! ### Data model of the server (`aggregateCandleData`) -/

/-- One CSV record as read back by the server (interface `CandleRecord`):
all fields are raw text. -/
structure CandleRecord where
  unixTimestamp : String
  «open» : String
  close : String
  high : String
  low : String
  tVol : String
deriving DecidableEq, Repr

/-- Interface `CandleDataBigInt`: the in-progress exact-mode bucket. -/
structure CandleDataBigInt where
  «open» : Int
  high : Int
  low : Int
  close : Int
  volume : Int
deriving DecidableEq, Repr

/-- Interface `CandleDataNumber`, with approximate-mode numbers embedded as
exact rationals (see the file header).  The `readableTimestamp` field of
the source — a formatted date string — is omitted; no claim concerns it. -/
structure CandleDataNumber where
  unixTimestamp : Int
  «open» : ℚ
  high : ℚ
  low : ℚ
  close : ℚ
  volume : ℚ
deriving DecidableEq, Repr

/-- Interface `CandleDataString`: the exact-mode output record.  The
`unixTimestamp` field is `parseInt` applied to the bucket key string, so it
is `none` exactly for the `"NaN"` bucket key; `readableTimestamp` is
omitted as above. -/
structure CandleDataString where
  unixTimestamp : Option Int
  «open» : String
  high : String
  low : String
  close : String
  volume : String
deriving DecidableEq, Repr

/-- The bucket key `Math.floor(timestamp / timeframeInSeconds) * timeframeInSeconds`.
`Math.floor` of the real quotient of integers is floored integer division. -/
def jsBucket (t w : Int) : Int := Int.fdiv t w * w

/-- Exact-mode parsing of one record's OHLCV fields, in the source's order
(`BigInt(record.Open)`, `High`, `Low`, `Close`, `tVol`); any throw aborts
the record (`continue`), hence the all-or-nothing `Option`. -/
def exactParsedOHLCV (r : CandleRecord) : Option (Int × Int × Int × Int × Int) :=
  match stringToBigInt r.«open», stringToBigInt r.high, stringToBigInt r.low,
        stringToBigInt r.close, stringToBigInt r.tVol with
  | some o, some h, some l, some c, some v => some (o, h, l, c, v)
  | _, _, _, _, _ => none

/-- One exact-mode fold step.  The bucket key is an `Option Int`: `none`
models the `"NaN"` object key that arises when `parseInt` of the record's
timestamp is `NaN` (the source computes `NaN` for `bucketTimestamp` and
stores the candle under the key `"NaN"`; it does not exclude the record,
since only the `BigInt` conversions can throw). -/
def exactStep (w : Int) (m : List (Option Int × CandleDataBigInt)) (r : CandleRecord) :
    List (Option Int × CandleDataBigInt) :=
  match exactParsedOHLCV r with
  | none => m
  | some (o, h, l, c, v) =>
    let b : Option Int := (parseIntJS r.unixTimestamp).map (fun t => jsBucket t w)
    alUpdate m b ⟨o, h, l, c, v⟩
      (fun cd => ⟨cd.«open», max cd.high h, min cd.low l, c, cd.volume + v⟩)

def exactFold (records : List CandleRecord) (w : Int) : List (Option Int × CandleDataBigInt) :=
  records.foldl (exactStep w) []

/-- Approximate-mode parsing of one record: `parseInt` for the timestamp and
`parseFloat` for the five OHLCV fields; the record is skipped when any of
the six is `NaN` (`[...].some(isNaN)`). -/
def approxParsed (r : CandleRecord) : Option (Int × ℚ × ℚ × ℚ × ℚ × ℚ) :=
  match parseIntJS r.unixTimestamp, parseFloatJS r.«open», parseFloatJS r.high,
        parseFloatJS r.low, parseFloatJS r.close, parseFloatJS r.tVol with
  | some t, some o, some h, some l, some c, some v => some (t, o, h, l, c, v)
  | _, _, _, _, _, _ => none

/-- One approximate-mode fold step; on a fresh bucket the candle stores the
bucket timestamp and the tick's fields, otherwise `high`/`low` are folded
with `Math.max`/`Math.min`, `close` is overwritten and `volume` summed. -/
def approxStep (w : Int) (m : List (Int × CandleDataNumber)) (r : CandleRecord) :
    List (Int × CandleDataNumber) :=
  match approxParsed r with
  | none => m
  | some (t, o, h, l, c, v) =>
    let b := jsBucket t w
    alUpdate m b ⟨b, o, h, l, c, v⟩
      (fun cd => ⟨cd.unixTimestamp, cd.«open», max cd.high h, min cd.low l, c, cd.volume + v⟩)

def approxFold (records : List CandleRecord) (w : Int) : List (Int × CandleDataNumber) :=
  records.foldl (approxStep w) []

/-! ### Emission

Both modes end with an explicit `.sort((a, b) => a.unixTimestamp - b.unixTimestamp)`
over the collected buckets.  The bucket keys are pairwise distinct, so for
integer keys the comparator is a strict total order and ECMAScript
guarantees the unique sorted permutation; any sorting algorithm models it,
and `List.insertionSort` is used here.  When an exact-mode `"NaN"` bucket
exists, its `unixTimestamp` maps back to `NaN` and the comparator treats it
as equal to everything, so its final position is implementation defined;
the model places it after all integer-keyed candles, and no theorem below
depends on that choice (only on the multiset of emitted candles). -/

def optKeyLE : Option Int → Option Int → Prop
  | some x, some y => x ≤ y
  | some _, none => True
  | none, some _ => False
  | none, none => True

instance : DecidableRel optKeyLE := by
  intro a b
  match a, b with
  | some x, some y => exact inferInstanceAs (Decidable (x ≤ y))
  | some _, none => exact inferInstanceAs (Decidable True)
  | none, some _ => exact inferInstanceAs (Decidable False)
  | none, none => exact inferInstanceAs (Decidable True)

def exactKeyLE (a b : Option Int × CandleDataBigInt) : Prop := optKeyLE a.1 b.1

instance : DecidableRel exactKeyLE := fun a b => inferInstanceAs (Decidable (optKeyLE a.1 b.1))

instance : IsTotal (Option Int × CandleDataBigInt) exactKeyLE := by
  constructor
  intro a b
  show optKeyLE a.1 b.1 ∨ optKeyLE b.1 a.1
  match a.1, b.1 with
  | some x, some y => exact le_total x y
  | some _, none => exact Or.inl trivial
  | none, some _ => exact Or.inr trivial
  | none, none => exact Or.inl trivial

instance : IsTrans (Option Int × CandleDataBigInt) exactKeyLE := by
  constructor
  intro a b c hab hbc
  show optKeyLE a.1 c.1
  unfold exactKeyLE at hab hbc
  match ha : a.1, hb : b.1, hc : c.1 with
  | some x, some y, some z =>
    rw [ha, hb] at hab
    rw [hb, hc] at hbc
    exact le_trans hab hbc
  | some _, some _, none => trivial
  | some _, none, none => trivial
  | none, none, none => trivial
  | some x, none, some z =>
    rw [hb, hc] at hbc
    exact absurd hbc not_false
  | none, some _, some _ =>
    rw [ha, hb] at hab
    exact absurd hab not_false
  | none, some _, none => trivial
  | none, none, some _ =>
    rw [hb, hc] at hbc
    exact absurd hbc not_false

def approxKeyLE (a b : Int × CandleDataNumber) : Prop := a.1 ≤ b.1

instance : DecidableRel approxKeyLE := fun a b => inferInstanceAs (Decidable (a.1 ≤ b.1))

instance : IsTotal (Int × CandleDataNumber) approxKeyLE := ⟨fun a b => le_total a.1 b.1⟩

instance : IsTrans (Int × CandleDataNumber) approxKeyLE := ⟨fun _ _ _ h h' => le_trans h h'⟩

/-- The exact-mode aggregation, up to (but not including) the final
string rendering: the sorted list of bucket entries. -/
def aggregateExactEntries (records : List CandleRecord) (w : Int) :
    List (Option Int × CandleDataBigInt) :=
  List.insertionSort exactKeyLE (exactFold records w)

/-- Rendering of one exact bucket entry back to text, modelling the
`.map(([timestampStr, ohlcv]) => ...)` over `Object.entries`: each field is
`BigInt.prototype.toString` (decimal), and `unixTimestamp` is `parseInt`
of the key string (so the `"NaN"` key yields `NaN`, i.e. `none`). -/
def renderExact (p : Option Int × CandleDataBigInt) : CandleDataString :=
  ⟨p.1, toString p.2.«open», toString p.2.high, toString p.2.low,
    toString p.2.close, toString p.2.volume⟩

/-- The exact-mode branch of `aggregateCandleData` (the source maps to
strings and then sorts; rendering preserves the sort key, so sorting the
entries first is the same function). -/
def aggregateExact (records : List CandleRecord) (w : Int) : List CandleDataString :=
  (aggregateExactEntries records w).map renderExact

/-- The approximate-mode branch of `aggregateCandleData`:
`Object.values(aggregatedCandles).sort(...)`. -/
def aggregateApprox (records : List CandleRecord) (w : Int) : List CandleDataNumber :=
  (List.insertionSort approxKeyLE (approxFold records w)).map (fun p => p.2)

/-- The union result type of `aggregateCandleData`. -/
inductive CandleData where
  | num (c : CandleDataNumber)
  | str (c : CandleDataString)
deriving DecidableEq, Repr

/-- `aggregateCandleData(records, timeframeInSeconds, outputAsString)`. -/
def aggregateCandleData (records : List CandleRecord) (w : Int) (outputAsString : Bool) :
    List CandleData :=
  if outputAsString then (aggregateExact records w).map CandleData.str
  else (aggregateApprox records w).map CandleData.num

/-! ### Data model of the tick collector (`fetchData`)

The collector performs network fetches through an `ethers` contract; the
chain is modelled as a pure source of the three views the script reads:
`totalTx()`, `txTimeStamp(i)` and `candleStickData(ts)` (all structurally
required — a failure there aborts the whole pass, so the model takes them
as total), plus the `tVol(ts)` mapping whose fetch is wrapped in a
per-tick `try`/`catch`; `none` models a failed lookup.  On-chain values
are `uint256`, hence non-negative, and are modelled as `Nat`. -/

structure CandleStick where
  time : Nat
  «open» : Nat
  close : Nat
  high : Nat
  low : Nat
deriving DecidableEq, Repr

structure ChainSource where
  totalTx : Nat
  txTimeStamp : Nat → Nat
  candleStickData : Nat → CandleStick
  tVol : Nat → Option Nat

/-- The UTC calendar date of a timestamp, modelled as the epoch-day number
`floor(ts / 86400)`: two timestamps render to the same
`toISOString().substring(0, 10)` date exactly when they fall on the same
epoch day. -/
def utcDay (ts : Nat) : Nat := ts / 86400

/-- The collector's running accumulators (`cumulativeTotalVolume`,
`currentDay`, `currentDayCumulativeVolume`). -/
structure RunState where
  cumulativeTotalVolume : Nat
  currentDay : Option Nat
  currentDayCumulativeVolume : Nat
deriving DecidableEq, Repr

def initialRunState : RunState := ⟨0, none, 0⟩

/-- One emitted row, combining the `tVolData` entry and the
`allCandleData` CSV row for a tick.  `tVol = none` models the `'Error'`
marker; `cumulativeDailyVolume` and `cumulativeTotalVolume` are the
accumulator snapshots taken when the row is pushed.  The redundant
`Total Transactions` column and the formatted `Readable Timestamp` column
are omitted; no claim concerns them. -/
structure TickRow where
  index : Nat
  timestamp : Nat
  «open» : Nat
  close : Nat
  high : Nat
  low : Nat
  tVol : Option Nat
  utcDate : Nat
  cumulativeDailyVolume : Nat
  cumulativeTotalVolume : Nat
deriving DecidableEq, Repr

/-- One iteration of the collection loop for transaction index `i`: fetch
the timestamp and candle, attempt the `tVol` fetch; on success update the
day-change detection and both accumulators, on failure (the `catch`
branch) leave all running state untouched; then push the row with the
current accumulator values. -/
def collectStep (src : ChainSource) (st : RunState) (i : Nat) : RunState × TickRow :=
  let ts := src.txTimeStamp i
  let d := utcDay ts
  let cs := src.candleStickData ts
  match src.tVol ts with
  | some v =>
    let st1 := if st.currentDay ≠ some d then
        { st with currentDay := some d, currentDayCumulativeVolume := 0 }
      else st
    let st2 : RunState :=
      { cumulativeTotalVolume := st1.cumulativeTotalVolume + v
        currentDay := st1.currentDay
        currentDayCumulativeVolume := st1.currentDayCumulativeVolume + v }
    (st2, ⟨i, ts, cs.«open», cs.close, cs.high, cs.low, some v, d,
            st2.currentDayCumulativeVolume, st2.cumulativeTotalVolume⟩)
  | none =>
    (st, ⟨i, ts, cs.«open», cs.close, cs.high, cs.low, none, d,
           st.currentDayCumulativeVolume, st.cumulativeTotalVolume⟩)

/-- The collection loop over a list of transaction indices, returning the
emitted rows in order together with the final accumulator state. -/
def collectFrom (src : ChainSource) (st : RunState) : List Nat → List TickRow × RunState
  | [] => ([], st)
  | i :: rest =>
    let p := collectStep src st i
    let q := collectFrom src p.1 rest
    (p.2 :: q.1, q.2)

/-- The first pass of `fetchData`: `for (let i = 1; i <= totalTx; i++)`. -/
def collectTicks (src : ChainSource) : List TickRow × RunState :=
  collectFrom src initialRunState ((List.range src.totalTx).map (· + 1))

/-- One row of the second pass of `fetchData`: a valid (non-`'Error'`)
volume is added to its UTC date's entry (`dailyVolumeMap.get(utcDate)`
defaulted to `0n`, plus the volume), an `'Error'` row is skipped.  (The
source also guards on `data.utcDate` being truthy; the collector always
writes a non-empty date string, so the guard is always taken.) -/
def dailyStep (m : List (Nat × Nat)) (r : TickRow) : List (Nat × Nat) :=
  match r.tVol with
  | some v => alUpdate m r.utcDate v (· + v)
  | none => m

/-- The second pass: `dailyVolumeMap`, an ES `Map` from UTC date to the sum
of the valid volumes on that date, in row order. -/
def dailyVolumeMap (rows : List TickRow) : List (Nat × Nat) :=
  rows.foldl dailyStep []

/-- The final update pass: every row is paired with its date's finalized
daily total, `dailyVolumeMap.get(utcDate)?.toString() || '0'` (a missing
date yields `'0'`). -/
def fetchData (src : ChainSource) : List (TickRow × Nat) :=
  let rows := (collectTicks src).1
  rows.map (fun r => (r, (alLookup (dailyVolumeMap rows) r.utcDate).getD 0))

/-- The order-independent per-day volume total: the sum of the valid
volumes of the rows carrying the given UTC date. -/
def dailySum (rows : List TickRow) (d : Nat) : Nat :=
  ((rows.filter (fun r => r.utcDate = d)).filterMap (fun r => r.tVol)).sum

/-! ### Data model of the HTTP endpoints -/

/-- The `timeframeMap` literal, in source order. -/
def timeframeMap : List (String × Int) :=
  [("1m", 60), ("5m", 300), ("15m", 900), ("30m", 1800), ("45m", 2700),
   ("1h", 3600), ("2h", 7200), ("3h", 10800), ("4h", 14400), ("5h", 18000),
   ("6h", 21600), ("12h", 43200), ("15h", 54000), ("18h", 64800), ("1d", 86400)]

/-- The member names inherited from `Object.prototype`.  The source's
`timeframeMap` is a plain object literal, so a bracket lookup with one of
these names finds the inherited member on the prototype chain — a
function (or, for `__proto__`, an object): truthy and not a number —
rather than `undefined`. -/
def objectPrototypeMembers : List String :=
  ["constructor", "hasOwnProperty", "isPrototypeOf", "propertyIsEnumerable",
   "toLocaleString", "toString", "valueOf", "__defineGetter__",
   "__defineSetter__", "__lookupGetter__", "__lookupSetter__", "__proto__"]

/-- The three possible outcomes of `timeframeMap[timeframe]`: an own key's
numeric value; a truthy non-numeric member inherited from
`Object.prototype`; or `undefined`.  Only `undefined` is falsy (every own
value is a positive number), so only `undefinedValue` takes the
`!timeframeInSeconds` guard. -/
inductive TimeframeValue where
  | own (w : Int)
  | inherited
  | undefinedValue
deriving DecidableEq, Repr

/-- `timeframeMap[timeframe]` on the object literal, prototype chain
included. -/
def timeframeLookup (tf : String) : TimeframeValue :=
  match (timeframeMap.find? (fun p => p.1 = tf)).map (fun p => p.2) with
  | some w => .own w
  | none => if tf ∈ objectPrototypeMembers then .inherited else .undefinedValue

/-- The enumerated vocabulary, `Object.keys(timeframeMap)`. -/
def timeframeKeys : List String := timeframeMap.map (fun p => p.1)

/-- An HTTP response of one endpoint: a 400 with an error message and the
valid-label list, a 200 with a body, or a 500 (the `catch` branch). -/
inductive ApiResult (β : Type) where
  | badRequest (error : String) (availableTimeframes : List String)
  | ok (body : β)
  | serverError (message : String)
deriving DecidableEq

/-- The OHLC-only projection of one candle (`/api/ohlc`). -/
inductive OhlcEntry where
  | num (unixTimestamp : Int) («open» high low close : ℚ)
  | str (unixTimestamp : Option Int) («open» high low close : String)
deriving DecidableEq, Repr

/-- The volume-only projection of one candle (`/api/volume`). -/
inductive VolumeEntry where
  | num (unixTimestamp : Int) (volume : ℚ)
  | str (unixTimestamp : Option Int) (volume : String)
deriving DecidableEq, Repr

def ohlcProj : CandleData → OhlcEntry
  | .num c => .num c.unixTimestamp c.«open» c.high c.low c.close
  | .str c => .str c.unixTimestamp c.«open» c.high c.low c.close

def volumeProj : CandleData → VolumeEntry
  | .num c => .num c.unixTimestamp c.volume
  | .str c => .str c.unixTimestamp c.volume

/-- Whether the exact-mode emission throws with a genuine numeric width:
when some record's OHLCV fields convert but its timestamp is `NaN`, the
fold creates a `"NaN"`-keyed bucket and rendering it evaluates
`new Date(parseInt("NaN") * 1000).toISOString()`, which raises a
RangeError (Invalid time value) caught by the endpoint's `catch` as a
500.  (The `readableTimestamp` *value* is omitted from the candle model,
but whether its computation throws decides the response status, so that
much is modelled here.) -/
def exactRenderThrows (records : List CandleRecord) : Bool :=
  records.any (fun r => (exactParsedOHLCV r).isSome && (parseIntJS r.unixTimestamp).isNone)

/-- Whether aggregation throws when called with the inherited, non-numeric
width of a prototype-chain label: `timestamp / width` is `NaN` for every
record, so every included record folds into the `"NaN"` bucket; in the
number branch, creating that bucket's candle evaluates
`new Date(NaN).toISOString()`, and in the string branch rendering the
`"NaN"` entry evaluates the same expression — either throws a RangeError
caught as a 500.  With no included record nothing throws and the result
is the empty candle list. -/
def nanWidthThrows (records : List CandleRecord) (outputAsString : Bool) : Bool :=
  if outputAsString then records.any (fun r => (exactParsedOHLCV r).isSome)
  else records.any (fun r => (approxParsed r).isSome)

/-- `GET /api/candles/:timeframe`.  `readResult` stands for the outcome of
`getCandleRecords()` — a file read outside this model — with `none`
modelling a thrown `Could not process CSV file.` error; `formatQ` is the
`?format=` query parameter.  An `inherited` lookup bypasses the 400
guard: the records are still read and the aggregation still runs, with
the width a non-numeric inherited member (see `nanWidthThrows`). -/
def apiCandles (readResult : Option (List CandleRecord)) (timeframe : String)
    (formatQ : Option String) : ApiResult (List CandleData) :=
  match timeframeLookup timeframe with
  | .undefinedValue => .badRequest "Invalid timeframe specified." timeframeKeys
  | .own w =>
    match readResult with
    | none => .serverError "Error fetching candle data"
    | some records =>
      if (formatQ = some "string") && exactRenderThrows records then
        .serverError "Error fetching candle data"
      else .ok (aggregateCandleData records w (formatQ = some "string"))
  | .inherited =>
    match readResult with
    | none => .serverError "Error fetching candle data"
    | some records =>
      if nanWidthThrows records (formatQ = some "string") then
        .serverError "Error fetching candle data"
      else .ok []

/-- `GET /api/ohlc/:timeframe`. -/
def apiOhlc (readResult : Option (List CandleRecord)) (timeframe : String)
    (formatQ : Option String) : ApiResult (List OhlcEntry) :=
  match timeframeLookup timeframe with
  | .undefinedValue => .badRequest "Invalid timeframe." timeframeKeys
  | .own w =>
    match readResult with
    | none => .serverError "Error fetching OHLC data"
    | some records =>
      if (formatQ = some "string") && exactRenderThrows records then
        .serverError "Error fetching OHLC data"
      else .ok ((aggregateCandleData records w (formatQ = some "string")).map ohlcProj)
  | .inherited =>
    match readResult with
    | none => .serverError "Error fetching OHLC data"
    | some records =>
      if nanWidthThrows records (formatQ = some "string") then
        .serverError "Error fetching OHLC data"
      else .ok []

/-- `GET /api/volume/:timeframe`. -/
def apiVolume (readResult : Option (List CandleRecord)) (timeframe : String)
    (formatQ : Option String) : ApiResult (List VolumeEntry) :=
  match timeframeLookup timeframe with
  | .undefinedValue => .badRequest "Invalid timeframe." timeframeKeys
  | .own w =>
    match readResult with
    | none => .serverError "Error fetching volume data"
    | some records =>
      if (formatQ = some "string") && exactRenderThrows records then
        .serverError "Error fetching volume data"
      else .ok ((aggregateCandleData records w (formatQ = some "string")).map volumeProj)
  | .inherited =>
    match readResult with
    | none => .serverError "Error fetching volume data"
    | some records =>
      if nanWidthThrows records (formatQ = some "string") then
        .serverError "Error fetching volume data"
      else .ok []

/-! ### Lemmas about `alUpdate` / `alLookup` -/

theorem mem_keys_alUpdate {κ α : Type} [DecidableEq κ] (m : List (κ × α)) (k : κ)
    (i : α) (u : α → α) (a : κ) :
    a ∈ (alUpdate m k i u).map Prod.fst ↔ a ∈ m.map Prod.fst ∨ a = k := by
  induction m with
  | nil => simp [alUpdate]
  | cons p rest ih =>
    obtain ⟨k', v⟩ := p
    by_cases hk : k' = k
    · subst hk
      simp [alUpdate]
      tauto
    · simp only [alUpdate, if_neg hk, List.map_cons, List.mem_cons, ih]
      tauto

theorem nodup_keys_alUpdate {κ α : Type} [DecidableEq κ] (m : List (κ × α)) (k : κ)
    (i : α) (u : α → α) (h : (m.map Prod.fst).Nodup) :
    ((alUpdate m k i u).map Prod.fst).Nodup := by
  induction m with
  | nil => simp [alUpdate]
  | cons p rest ih =>
    obtain ⟨k', v⟩ := p
    simp only [List.map_cons, List.nodup_cons] at h
    by_cases hk : k' = k
    · subst hk
      simpa [alUpdate] using h
    · simp only [alUpdate, if_neg hk, List.map_cons, List.nodup_cons]
      refine ⟨fun hc => ?_, ih h.2⟩
      rcases (mem_keys_alUpdate rest k i u k').1 hc with hm | he
      · exact h.1 hm
      · exact hk he


theorem forall_alUpdate {κ α : Type} [DecidableEq κ] (m : List (κ × α)) (k : κ)
    (i : α) (u : α → α) (P : κ → α → Prop)
    (hi : P k i) (hu : ∀ v, P k v → P k (u v)) :
    (∀ p ∈ m, P p.1 p.2) → ∀ p ∈ alUpdate m k i u, P p.1 p.2 := by
  induction m with
  | nil =>
    intro _ p hp
    simp only [alUpdate, List.mem_singleton] at hp
    subst hp
    exact hi
  | cons q rest ih =>
    obtain ⟨k', v⟩ := q
    intro hm p hp
    simp only [alUpdate] at hp
    by_cases hk : k' = k
    · rw [if_pos hk] at hp
      rcases List.mem_cons.1 hp with hp | hp
      · subst hp
        show P k' (u v)
        have h1 : P k' v := hm (k', v) (List.mem_cons_self _ _)
        rw [hk] at h1 ⊢
        exact hu v h1
      · exact hm p (List.mem_cons_of_mem _ hp)
    · rw [if_neg hk] at hp
      rcases List.mem_cons.1 hp with hp | hp
      · subst hp
        exact hm (k', v) (List.mem_cons_self _ _)
      · exact ih (fun q hq => hm q (List.mem_cons_of_mem _ hq)) p hp

theorem sum_alUpdate {κ α M : Type} [DecidableEq κ] [AddCommMonoid M]
    (m : List (κ × α)) (k : κ) (i : α) (u : α → α) (f : α → M) (x : M)
    (hi : f i = x) (hu : ∀ v, f (u v) = f v + x) :
    ((alUpdate m k i u).map (fun p => f p.2)).sum = (m.map (fun p => f p.2)).sum + x := by
  induction m with
  | nil => simp [alUpdate, hi]
  | cons q rest ih =>
    obtain ⟨k', v⟩ := q
    simp only [alUpdate]
    by_cases hk : k' = k
    · rw [if_pos hk]
      simp only [List.map_cons, List.sum_cons, hu v]
      rw [add_right_comm]
    · rw [if_neg hk]
      simp only [List.map_cons, List.sum_cons, ih]
      rw [add_assoc]

theorem alLookup_alUpdate_self {κ α : Type} [DecidableEq κ] (m : List (κ × α)) (k : κ)
    (i : α) (u : α → α) :
    alLookup (alUpdate m k i u) k =
      some (match alLookup m k with | none => i | some v => u v) := by
  induction m with
  | nil => simp [alUpdate, alLookup]
  | cons q rest ih =>
    obtain ⟨k', v⟩ := q
    by_cases hk : k' = k
    · simp [alUpdate, alLookup, hk]
    · simp [alUpdate, alLookup, hk, ih]

theorem alLookup_alUpdate_other {κ α : Type} [DecidableEq κ] (m : List (κ × α)) (k : κ)
    (i : α) (u : α → α) (a : κ) (ha : a ≠ k) :
    alLookup (alUpdate m k i u) a = alLookup m a := by
  induction m with
  | nil =>
    simp only [alUpdate, alLookup]
    rw [if_neg (fun h : k = a => ha h.symm)]
  | cons q rest ih =>
    obtain ⟨k', v⟩ := q
    simp only [alUpdate]
    by_cases hk : k' = k
    · rw [if_pos hk]
      simp only [alLookup]
      have hka : ¬(k' = a) := fun h => ha (h.symm.trans hk)
      rw [if_neg hka, if_neg hka]
    · rw [if_neg hk]
      simp only [alLookup]
      by_cases hka : k' = a
      · rw [if_pos hka, if_pos hka]
      · rw [if_neg hka, if_neg hka, ih]

/-! ### Lemmas about the exact-mode fold -/

/-- The bucket key assigned to a record in exact mode (`none` is the
`"NaN"` key). -/
def exactBucket (w : Int) (r : CandleRecord) : Option Int :=
  (parseIntJS r.unixTimestamp).map (fun t => jsBucket t w)

def exactUpd (h l c v : Int) (cd : CandleDataBigInt) : CandleDataBigInt :=
  ⟨cd.«open», max cd.high h, min cd.low l, c, cd.volume + v⟩

theorem exactStep_none {w : Int} {m : List (Option Int × CandleDataBigInt)}
    {r : CandleRecord} (hr : exactParsedOHLCV r = none) : exactStep w m r = m := by
  unfold exactStep
  rw [hr]

theorem exactStep_some {w : Int} {m : List (Option Int × CandleDataBigInt)}
    {r : CandleRecord} {o h l c v : Int} (hr : exactParsedOHLCV r = some (o, h, l, c, v)) :
    exactStep w m r = alUpdate m (exactBucket w r) ⟨o, h, l, c, v⟩ (exactUpd h l c v) := by
  unfold exactStep
  rw [hr]
  rfl

theorem mem_keys_exactFoldAux (w : Int) (rs : List CandleRecord) :
    ∀ (m : List (Option Int × CandleDataBigInt)) (b : Option Int),
    b ∈ (rs.foldl (exactStep w) m).map Prod.fst ↔
      b ∈ m.map Prod.fst ∨
        ∃ r ∈ rs, (exactParsedOHLCV r).isSome ∧ exactBucket w r = b := by
  induction rs with
  | nil => simp
  | cons r rest ih =>
    intro m b
    rw [List.foldl_cons]
    match hr : exactParsedOHLCV r with
    | none =>
      rw [exactStep_none hr, ih]
      constructor
      · rintro (hm | ⟨r', hr', hp, hq⟩)
        · exact Or.inl hm
        · exact Or.inr ⟨r', List.mem_cons_of_mem _ hr', hp, hq⟩
      · rintro (hm | ⟨r', hr', hp, hq⟩)
        · exact Or.inl hm
        · rcases List.mem_cons.1 hr' with he | hr'
          · subst he
            rw [hr] at hp
            exact absurd hp (by simp)
          · exact Or.inr ⟨r', hr', hp, hq⟩
    | some (o, h, l, c, v) =>
      rw [exactStep_some hr, ih]
      constructor
      · rintro (hm | ⟨r', hr', hp, hq⟩)
        · rcases (mem_keys_alUpdate m _ _ _ b).1 hm with hm' | hb
          · exact Or.inl hm'
          · refine Or.inr ⟨r, List.mem_cons_self _ _, ?_, hb.symm⟩
            rw [hr]
            rfl
        · exact Or.inr ⟨r', List.mem_cons_of_mem _ hr', hp, hq⟩
      · rintro (hm | ⟨r', hr', hp, hq⟩)
        · exact Or.inl ((mem_keys_alUpdate m _ _ _ b).2 (Or.inl hm))
        · rcases List.mem_cons.1 hr' with he | hr'
          · subst he
            exact Or.inl ((mem_keys_alUpdate m _ _ _ b).2 (Or.inr hq.symm))
          · exact Or.inr ⟨r', hr', hp, hq⟩

theorem nodup_keys_exactFoldAux (w : Int) (rs : List CandleRecord) :
    ∀ (m : List (Option Int × CandleDataBigInt)),
    (m.map Prod.fst).Nodup → ((rs.foldl (exactStep w) m).map Prod.fst).Nodup := by
  induction rs with
  | nil => exact fun m hm => hm
  | cons r rest ih =>
    intro m hm
    rw [List.foldl_cons]
    match hr : exactParsedOHLCV r with
    | none =>
      rw [exactStep_none hr]
      exact ih m hm
    | some (o, h, l, c, v) =>
      rw [exactStep_some hr]
      exact ih _ (nodup_keys_alUpdate m _ _ _ hm)

theorem forall_exactFoldAux (w : Int) (rs : List CandleRecord)
    (P : Option Int → CandleDataBigInt → Prop)
    (hstep : ∀ r ∈ rs, ∀ o h l c v, exactParsedOHLCV r = some (o, h, l, c, v) →
      P (exactBucket w r) ⟨o, h, l, c, v⟩ ∧
        ∀ cd, P (exactBucket w r) cd → P (exactBucket w r) (exactUpd h l c v cd)) :
    ∀ (m : List (Option Int × CandleDataBigInt)), (∀ p ∈ m, P p.1 p.2) →
      ∀ p ∈ rs.foldl (exactStep w) m, P p.1 p.2 := by
  induction rs with
  | nil => exact fun m hm => hm
  | cons r rest ih =>
    intro m hm
    rw [List.foldl_cons]
    have hrest : ∀ r' ∈ rest, ∀ o h l c v, exactParsedOHLCV r' = some (o, h, l, c, v) →
        P (exactBucket w r') ⟨o, h, l, c, v⟩ ∧
          ∀ cd, P (exactBucket w r') cd → P (exactBucket w r') (exactUpd h l c v cd) :=
      fun r' hr' => hstep r' (List.mem_cons_of_mem _ hr')
    match hr : exactParsedOHLCV r with
    | none =>
      rw [exactStep_none hr]
      exact ih hrest m hm
    | some (o, h, l, c, v) =>
      rw [exactStep_some hr]
      have hme := hstep r (List.mem_cons_self _ _) o h l c v hr
      exact ih hrest _ (forall_alUpdate m _ _ _ P hme.1 hme.2 hm)

theorem volsum_exactFoldAux (w : Int) (rs : List CandleRecord)
    (hok : ∀ r ∈ rs, (stringToBigInt r.«open»).isSome ∧ (stringToBigInt r.high).isSome ∧
      (stringToBigInt r.low).isSome ∧ (stringToBigInt r.close).isSome) :
    ∀ (m : List (Option Int × CandleDataBigInt)),
    ((rs.foldl (exactStep w) m).map (fun p => p.2.volume)).sum =
      (m.map (fun p => p.2.volume)).sum + (rs.filterMap (fun r => stringToBigInt r.tVol)).sum := by
  induction rs with
  | nil => simp
  | cons r rest ih =>
    intro m
    rw [List.foldl_cons, List.filterMap_cons]
    have hr4 := hok r (List.mem_cons_self _ _)
    obtain ⟨o, ho⟩ := Option.isSome_iff_exists.1 hr4.1
    obtain ⟨h, hh⟩ := Option.isSome_iff_exists.1 hr4.2.1
    obtain ⟨l, hl⟩ := Option.isSome_iff_exists.1 hr4.2.2.1
    obtain ⟨c, hc⟩ := Option.isSome_iff_exists.1 hr4.2.2.2
    have hrest := fun r' hr' => hok r' (List.mem_cons_of_mem _ hr')
    match hv : stringToBigInt r.tVol with
    | none =>
      have hp : exactParsedOHLCV r = none := by
        unfold exactParsedOHLCV
        rw [ho, hh, hl, hc, hv]
      rw [exactStep_none hp]
      exact ih hrest m
    | some v =>
      have hp : exactParsedOHLCV r = some (o, h, l, c, v) := by
        unfold exactParsedOHLCV
        rw [ho, hh, hl, hc, hv]
      rw [exactStep_some hp, ih hrest]
      rw [sum_alUpdate _ _ _ _ _ v rfl (fun cd => rfl), List.sum_cons]
      ring

/-! ### Lemmas about the approximate-mode fold -/

def approxUpd (h l c v : ℚ) (cd : CandleDataNumber) : CandleDataNumber :=
  ⟨cd.unixTimestamp, cd.«open», max cd.high h, min cd.low l, c, cd.volume + v⟩

theorem approxStep_none {w : Int} {m : List (Int × CandleDataNumber)}
    {r : CandleRecord} (hr : approxParsed r = none) : approxStep w m r = m := by
  unfold approxStep
  rw [hr]

theorem approxStep_some {w : Int} {m : List (Int × CandleDataNumber)}
    {r : CandleRecord} {t : Int} {o h l c v : ℚ}
    (hr : approxParsed r = some (t, o, h, l, c, v)) :
    approxStep w m r =
      alUpdate m (jsBucket t w) ⟨jsBucket t w, o, h, l, c, v⟩ (approxUpd h l c v) := by
  unfold approxStep
  rw [hr]
  rfl

theorem mem_keys_approxFoldAux (w : Int) (rs : List CandleRecord) :
    ∀ (m : List (Int × CandleDataNumber)) (b : Int),
    b ∈ (rs.foldl (approxStep w) m).map Prod.fst ↔
      b ∈ m.map Prod.fst ∨
        ∃ r ∈ rs, ∃ q, approxParsed r = some q ∧ jsBucket q.1 w = b := by
  induction rs with
  | nil => simp
  | cons r rest ih =>
    intro m b
    rw [List.foldl_cons]
    match hr : approxParsed r with
    | none =>
      rw [approxStep_none hr, ih]
      constructor
      · rintro (hm | ⟨r', hr', q, hp, hq⟩)
        · exact Or.inl hm
        · exact Or.inr ⟨r', List.mem_cons_of_mem _ hr', q, hp, hq⟩
      · rintro (hm | ⟨r', hr', q, hp, hq⟩)
        · exact Or.inl hm
        · rcases List.mem_cons.1 hr' with he | hr'
          · subst he
            rw [hr] at hp
            exact absurd hp (by simp)
          · exact Or.inr ⟨r', hr', q, hp, hq⟩
    | some (t, o, h, l, c, v) =>
      rw [approxStep_some hr, ih]
      constructor
      · rintro (hm | ⟨r', hr', q, hp, hq⟩)
        · rcases (mem_keys_alUpdate m _ _ _ b).1 hm with hm' | hb
          · exact Or.inl hm'
          · exact Or.inr ⟨r, List.mem_cons_self _ _, (t, o, h, l, c, v), hr, hb.symm⟩
        · exact Or.inr ⟨r', List.mem_cons_of_mem _ hr', q, hp, hq⟩
      · rintro (hm | ⟨r', hr', q, hp, hq⟩)
        · exact Or.inl ((mem_keys_alUpdate m _ _ _ b).2 (Or.inl hm))
        · rcases List.mem_cons.1 hr' with he | hr'
          · subst he
            rw [hr] at hp
            obtain rfl : (t, o, h, l, c, v) = q := by injection hp
            exact Or.inl ((mem_keys_alUpdate m _ _ _ b).2 (Or.inr hq.symm))
          · exact Or.inr ⟨r', hr', q, hp, hq⟩

theorem nodup_keys_approxFoldAux (w : Int) (rs : List CandleRecord) :
    ∀ (m : List (Int × CandleDataNumber)),
    (m.map Prod.fst).Nodup → ((rs.foldl (approxStep w) m).map Prod.fst).Nodup := by
  induction rs with
  | nil => exact fun m hm => hm
  | cons r rest ih =>
    intro m hm
    rw [List.foldl_cons]
    match hr : approxParsed r with
    | none =>
      rw [approxStep_none hr]
      exact ih m hm
    | some (t, o, h, l, c, v) =>
      rw [approxStep_some hr]
      exact ih _ (nodup_keys_alUpdate m _ _ _ hm)

theorem forall_approxFoldAux (w : Int) (rs : List CandleRecord)
    (P : Int → CandleDataNumber → Prop)
    (hstep : ∀ r ∈ rs, ∀ t o h l c v, approxParsed r = some (t, o, h, l, c, v) →
      P (jsBucket t w) ⟨jsBucket t w, o, h, l, c, v⟩ ∧
        ∀ cd, P (jsBucket t w) cd → P (jsBucket t w) (approxUpd h l c v cd)) :
    ∀ (m : List (Int × CandleDataNumber)), (∀ p ∈ m, P p.1 p.2) →
      ∀ p ∈ rs.foldl (approxStep w) m, P p.1 p.2 := by
  induction rs with
  | nil => exact fun m hm => hm
  | cons r rest ih =>
    intro m hm
    rw [List.foldl_cons]
    have hrest : ∀ r' ∈ rest, ∀ t o h l c v, approxParsed r' = some (t, o, h, l, c, v) →
        P (jsBucket t w) ⟨jsBucket t w, o, h, l, c, v⟩ ∧
          ∀ cd, P (jsBucket t w) cd → P (jsBucket t w) (approxUpd h l c v cd) :=
      fun r' hr' => hstep r' (List.mem_cons_of_mem _ hr')
    match hr : approxParsed r with
    | none =>
      rw [approxStep_none hr]
      exact ih hrest m hm
    | some (t, o, h, l, c, v) =>
      rw [approxStep_some hr]
      have hme := hstep r (List.mem_cons_self _ _) t o h l c v hr
      exact ih hrest _ (forall_alUpdate m _ _ _ P hme.1 hme.2 hm)

/-! ### Emission-level lemmas -/

theorem aggregateExactEntries_perm (records : List CandleRecord) (w : Int) :
    (aggregateExactEntries records w).Perm (exactFold records w) :=
  List.perm_insertionSort exactKeyLE (exactFold records w)

theorem sorted_aggregateExactEntries (records : List CandleRecord) (w : Int) :
    List.Sorted exactKeyLE (aggregateExactEntries records w) :=
  List.sorted_insertionSort exactKeyLE (exactFold records w)

theorem mem_keys_aggregateExactEntries (records : List CandleRecord) (w : Int) (b : Option Int) :
    b ∈ (aggregateExactEntries records w).map Prod.fst ↔
      ∃ r ∈ records, (exactParsedOHLCV r).isSome ∧ exactBucket w r = b := by
  rw [((aggregateExactEntries_perm records w).map Prod.fst).mem_iff]
  have := mem_keys_exactFoldAux w records [] b
  simpa [exactFold] using this

theorem nodup_keys_aggregateExactEntries (records : List CandleRecord) (w : Int) :
    ((aggregateExactEntries records w).map Prod.fst).Nodup := by
  rw [((aggregateExactEntries_perm records w).map Prod.fst).nodup_iff]
  exact nodup_keys_exactFoldAux w records [] (by simp)

theorem approxEmitted_perm (records : List CandleRecord) (w : Int) :
    (List.insertionSort approxKeyLE (approxFold records w)).Perm (approxFold records w) :=
  List.perm_insertionSort approxKeyLE (approxFold records w)

theorem forall_approxFold_key (records : List CandleRecord) (w : Int) :
    ∀ p ∈ approxFold records w, p.2.unixTimestamp = p.1 := by
  refine forall_approxFoldAux w records (fun k cd => cd.unixTimestamp = k) ?_ [] (by simp)
  intro r _ t o h l c v _
  exact ⟨rfl, fun cd hcd => hcd⟩

theorem map_unixTimestamp_aggregateApprox (records : List CandleRecord) (w : Int) :
    (aggregateApprox records w).map (fun cd => cd.unixTimestamp) =
      (List.insertionSort approxKeyLE (approxFold records w)).map Prod.fst := by
  unfold aggregateApprox
  rw [List.map_map]
  refine List.map_congr_left ?_
  intro p hp
  exact forall_approxFold_key records w p ((approxEmitted_perm records w).mem_iff.1 hp)

theorem mem_keys_aggregateApprox (records : List CandleRecord) (w : Int) (b : Int) :
    b ∈ (aggregateApprox records w).map (fun cd => cd.unixTimestamp) ↔
      ∃ r ∈ records, ∃ q, approxParsed r = some q ∧ jsBucket q.1 w = b := by
  rw [map_unixTimestamp_aggregateApprox,
    ((approxEmitted_perm records w).map Prod.fst).mem_iff]
  have := mem_keys_approxFoldAux w records [] b
  simpa [approxFold] using this

theorem sorted_keys_aggregateApprox (records : List CandleRecord) (w : Int) :
    ((aggregateApprox records w).map (fun cd => cd.unixTimestamp)).Sorted (· < ·) := by
  rw [map_unixTimestamp_aggregateApprox]
  have hs : List.Sorted approxKeyLE (List.insertionSort approxKeyLE (approxFold records w)) :=
    List.sorted_insertionSort approxKeyLE (approxFold records w)
  have hle : ((List.insertionSort approxKeyLE (approxFold records w)).map Prod.fst).Pairwise (· ≤ ·) :=
    (List.pairwise_map).2 hs
  have hnd : ((List.insertionSort approxKeyLE (approxFold records w)).map Prod.fst).Nodup := by
    rw [((approxEmitted_perm records w).map Prod.fst).nodup_iff]
    exact nodup_keys_approxFoldAux w records [] (by simp)
  exact (hle.and hnd).imp (fun hx => lt_of_le_of_ne hx.1 hx.2)

theorem isSome_of_mem_list_option {l : List (Option Int)} (h : ∀ x ∈ l, x.isSome) :
    l = (l.filterMap id).map some := by
  induction l with
  | nil => rfl
  | cons a t ih =>
    cases a with
    | none => exact absurd (h none (List.mem_cons_self _ _)) (by simp)
    | some x =>
      have ht := ih (fun y hy => h y (List.mem_cons_of_mem _ hy))
      calc some x :: t = some x :: (t.filterMap id).map some := by rw [← ht]
        _ = (((some x) :: t).filterMap id).map some := by rfl

theorem exact_keys_all_some (records : List CandleRecord) (w : Int)
    (hts : ∀ r ∈ records, (parseIntJS r.unixTimestamp).isSome) :
    ∀ b ∈ (aggregateExactEntries records w).map Prod.fst, b.isSome := by
  intro b hb
  obtain ⟨r, hr, _, hq⟩ := (mem_keys_aggregateExactEntries records w b).1 hb
  obtain ⟨t, ht⟩ := Option.isSome_iff_exists.1 (hts r hr)
  rw [← hq]
  unfold exactBucket
  rw [ht]
  rfl

/-- C1 counterexample: the claim quantifies over every input record
sequence, but in exact mode a record whose timestamp fails `parseInt`
(while its OHLCV fields convert) is folded into a `"NaN"`-keyed bucket
(see C5): the single emitted entry's key is `none`, which is no integer
bucket-start at all — so the emitted sequence is not one-candle-per-
distinct-`bucketStart` sorted by bucket start, refuting the claim at
this input (its rendering moreover throws on `Date.toISOString`, see
`exactRenderThrows`). -/
theorem C1_counterexample_nan_bucket :
    (aggregateExactEntries [⟨"zzz", "2", "3", "4", "1", "6"⟩] 60).map Prod.fst = [none]
    ∧ ((aggregateExactEntries [⟨"zzz", "2", "3", "4", "1", "6"⟩] 60).map Prod.fst).all
        Option.isSome = false :=
  ⟨by decide, by decide⟩

/-- C1 as amended: for every record sequence all of whose timestamps
parse under `parseInt` (always the case for collector-produced data),
every positive bucket width and either precision mode, the aggregation
emits exactly one candle per distinct bucket-start value present among
the included ticks (membership is an "iff", and the emitted keys are
strictly sorted, hence pairwise distinct), no candle for an empty
bucket, and the emitted sequence is sorted by bucket start ascending — a
true sort over the bucket keys.  A record with an unparseable timestamp
instead lands, in exact mode, in a single `"NaN"`-keyed bucket carrying
no integer bucket start (the counterexample above). -/
theorem C1_bucket_partition_sorted (records : List CandleRecord) (w : Int)
    (hw : 0 < w) (hts : ∀ r ∈ records, (parseIntJS r.unixTimestamp).isSome) :
    (((aggregateApprox records w).map (fun cd => cd.unixTimestamp)).Sorted (· < ·)
      ∧ ∀ b : Int, b ∈ (aggregateApprox records w).map (fun cd => cd.unixTimestamp) ↔
          ∃ r ∈ records, ∃ q, approxParsed r = some q ∧ jsBucket q.1 w = b)
    ∧ ∃ ks : List Int,
        (aggregateExactEntries records w).map Prod.fst = ks.map some
        ∧ ks.Sorted (· < ·)
        ∧ ∀ b : Int, b ∈ ks ↔
            ∃ r ∈ records, (exactParsedOHLCV r).isSome ∧ exactBucket w r = some b := by
  constructor
  · exact ⟨sorted_keys_aggregateApprox records w,
      fun b => mem_keys_aggregateApprox records w b⟩
  · set keys := (aggregateExactEntries records w).map Prod.fst with hkeys
    have hsome : ∀ b ∈ keys, b.isSome := exact_keys_all_some records w hts
    have heq : keys = (keys.filterMap id).map some := isSome_of_mem_list_option hsome
    refine ⟨keys.filterMap id, heq, ?_, ?_⟩
    · have hs : List.Sorted exactKeyLE (aggregateExactEntries records w) :=
        sorted_aggregateExactEntries records w
      have hle : keys.Pairwise optKeyLE := (List.pairwise_map).2 hs
      rw [heq] at hle
      have hle' : (keys.filterMap id).Pairwise (· ≤ ·) :=
        ((List.pairwise_map).1 hle).imp (fun hab => hab)
      have hnd : keys.Nodup := nodup_keys_aggregateExactEntries records w
      rw [heq] at hnd
      have hnd' : (keys.filterMap id).Nodup := hnd.of_map some
      exact (hle'.and hnd').imp (fun hx => lt_of_le_of_ne hx.1 hx.2)
    · intro b
      have hb : b ∈ keys.filterMap id ↔ some b ∈ keys := by
        constructor
        · intro h
          rw [heq]
          exact List.mem_map_of_mem some h
        · intro h
          rw [heq] at h
          obtain ⟨x, hx, he⟩ := List.mem_map.1 h
          obtain rfl : x = b := by injection he
          exact hx
      rw [hb, hkeys]
      exact mem_keys_aggregateExactEntries records w (some b)

/-- Witness for C1 at a concrete input: three ticks arriving out of
timestamp order (90, 0, 30) at width 60 yield the strictly sorted
bucket keys [0, 60] in both modes. -/
theorem C1_bucket_partition_sorted_witness :
    (((aggregateApprox
        [⟨"90", "5", "6", "7", "4", "1"⟩, ⟨"0", "1", "2", "3", "1", "4"⟩,
         ⟨"30", "9", "9", "9", "9", "2"⟩] 60).map (fun cd => cd.unixTimestamp)).Sorted (· < ·))
    ∧ (aggregateApprox
        [⟨"90", "5", "6", "7", "4", "1"⟩, ⟨"0", "1", "2", "3", "1", "4"⟩,
         ⟨"30", "9", "9", "9", "9", "2"⟩] 60).map (fun cd => cd.unixTimestamp) = [0, 60]
    ∧ (aggregateExactEntries
        [⟨"90", "5", "6", "7", "4", "1"⟩, ⟨"0", "1", "2", "3", "1", "4"⟩,
         ⟨"30", "9", "9", "9", "9", "2"⟩] 60).map Prod.fst = [some 0, some 60] :=
  ⟨(C1_bucket_partition_sorted _ 60 (by decide) (by decide)).1.1, by decide, by decide⟩

/-- C2: in exact mode, the sum of the candle volumes equals the exact
integer sum of the individual tick volumes, excluding ticks whose volume
is unavailable (the `'Error'` marker does not convert, so those ticks are
excluded; see C3).  The whole exact pipeline — `stringToBigInt`,
`exactStep`, this sum — is integer arithmetic with no floating-point
intermediate, exactly as the `BigInt`-only source path. -/
theorem C2_exact_volume_sum (records : List CandleRecord) (w : Int) (hw : 0 < w)
    (h : ∀ r ∈ records, (parseIntJS r.unixTimestamp).isSome ∧
      (stringToBigInt r.«open»).isSome ∧ (stringToBigInt r.high).isSome ∧
      (stringToBigInt r.low).isSome ∧ (stringToBigInt r.close).isSome) :
    ((aggregateExactEntries records w).map (fun p => p.2.volume)).sum
      = (records.filterMap (fun r => stringToBigInt r.tVol)).sum := by
  have hperm := (aggregateExactEntries_perm records w).map (fun p => p.2.volume)
  rw [hperm.sum_eq]
  have hsum := volsum_exactFoldAux w records
    (fun r hr => ⟨(h r hr).2.1, (h r hr).2.2.1, (h r hr).2.2.2.1, (h r hr).2.2.2.2⟩) []
  simpa [exactFold] using hsum

/-- Witness for C2: three ticks with volumes 5, unavailable, 7; both
sides evaluate to 12. -/
theorem C2_exact_volume_sum_witness :
    ((aggregateExactEntries
        [⟨"0", "1", "2", "3", "1", "5"⟩, ⟨"30", "2", "3", "4", "2", "Error"⟩,
         ⟨"90", "5", "6", "7", "4", "7"⟩] 60).map (fun p => p.2.volume)).sum
      = (([⟨"0", "1", "2", "3", "1", "5"⟩, ⟨"30", "2", "3", "4", "2", "Error"⟩,
          ⟨"90", "5", "6", "7", "4", "7"⟩] : List CandleRecord).filterMap
            (fun r => stringToBigInt r.tVol)).sum
    ∧ (([⟨"0", "1", "2", "3", "1", "5"⟩, ⟨"30", "2", "3", "4", "2", "Error"⟩,
          ⟨"90", "5", "6", "7", "4", "7"⟩] : List CandleRecord).filterMap
            (fun r => stringToBigInt r.tVol)).sum = 12 :=
  ⟨C2_exact_volume_sum _ 60 (by decide) (by decide), by decide⟩

/-! ### Helpers for parse-failure exclusion (shared by C3 and C5) -/

theorem approxParsed_none_of_tVol {r : CandleRecord} (h : parseFloatJS r.tVol = none) :
    approxParsed r = none := by
  unfold approxParsed
  rw [h]
  cases parseIntJS r.unixTimestamp <;> cases parseFloatJS r.«open» <;>
    cases parseFloatJS r.high <;> cases parseFloatJS r.low <;>
    cases parseFloatJS r.close <;> rfl

theorem exactParsedOHLCV_none_of_tVol {r : CandleRecord} (h : stringToBigInt r.tVol = none) :
    exactParsedOHLCV r = none := by
  unfold exactParsedOHLCV
  rw [h]
  cases stringToBigInt r.«open» <;> cases stringToBigInt r.high <;>
    cases stringToBigInt r.low <;> cases stringToBigInt r.close <;> rfl

theorem foldl_middle_id {β γ : Type} (f : γ → β → γ) (xs ys : List β) (r : β)
    (h : ∀ acc, f acc r = acc) :
    ∀ init, (xs ++ r :: ys).foldl f init = (xs ++ ys).foldl f init := by
  induction xs with
  | nil =>
    intro init
    simp only [List.nil_append, List.foldl_cons, h]
  | cons x xt ih =>
    intro init
    simp only [List.cons_append, List.foldl_cons]
    exact ih _

theorem approx_removable (w : Int) (xs ys : List CandleRecord) (r : CandleRecord)
    (hr : approxParsed r = none) :
    aggregateApprox (xs ++ r :: ys) w = aggregateApprox (xs ++ ys) w := by
  unfold aggregateApprox
  unfold approxFold
  rw [foldl_middle_id (approxStep w) xs ys r (fun acc => approxStep_none hr)]

theorem exact_removable (w : Int) (xs ys : List CandleRecord) (r : CandleRecord)
    (hr : exactParsedOHLCV r = none) :
    aggregateExactEntries (xs ++ r :: ys) w = aggregateExactEntries (xs ++ ys) w := by
  unfold aggregateExactEntries
  unfold exactFold
  rw [foldl_middle_id (exactStep w) xs ys r (fun acc => exactStep_none hr)]

/-- C3 counterexample: a tick whose volume lookup failed (its `tVol` field
is the collector's `'Error'` marker) is NOT folded into any bucket — in
exact mode `BigInt('Error')` throws and in approximate mode
`parseFloat('Error')` is `NaN`, so the record is skipped entirely and the
aggregation of that single tick is empty in both modes, contradicting the
claim that its open/high/low/close still reach a candle with volume 0. -/
theorem C3_counterexample_unavailable_dropped :
    aggregateExact [⟨"0", "1", "2", "3", "1", "Error"⟩] 60 = []
    ∧ aggregateApprox [⟨"0", "1", "2", "3", "1", "Error"⟩] 60 = [] :=
  ⟨by decide, by decide⟩

/-- C3 as amended: a tick carrying the unavailable-volume marker `'Error'`
is excluded from aggregation entirely, in both precision modes: removing
it from the input changes nothing (it opens no bucket, folds no
open/high/low/close and contributes no volume). -/
theorem C3_amended_unavailable_excluded (w : Int) (xs ys : List CandleRecord)
    (r : CandleRecord) (hr : r.tVol = "Error") :
    aggregateApprox (xs ++ r :: ys) w = aggregateApprox (xs ++ ys) w
    ∧ aggregateExactEntries (xs ++ r :: ys) w = aggregateExactEntries (xs ++ ys) w := by
  constructor
  · refine approx_removable w xs ys r (approxParsed_none_of_tVol ?_)
    rw [hr]
    decide
  · refine exact_removable w xs ys r (exactParsedOHLCV_none_of_tVol ?_)
    rw [hr]
    decide

/-- Witness for the amended C3: dropping a concrete `'Error'`-volume tick
from a two-tick input leaves both aggregations unchanged. -/
theorem C3_amended_unavailable_excluded_witness :
    aggregateApprox ([⟨"0", "1", "2", "3", "1", "5"⟩] ++ ⟨"30", "2", "3", "4", "2", "Error"⟩ :: []) 60
      = aggregateApprox ([⟨"0", "1", "2", "3", "1", "5"⟩] ++ []) 60
    ∧ aggregateExactEntries ([⟨"0", "1", "2", "3", "1", "5"⟩] ++ ⟨"30", "2", "3", "4", "2", "Error"⟩ :: []) 60
      = aggregateExactEntries ([⟨"0", "1", "2", "3", "1", "5"⟩] ++ []) 60 :=
  C3_amended_unavailable_excluded 60 [⟨"0", "1", "2", "3", "1", "5"⟩] []
    ⟨"30", "2", "3", "4", "2", "Error"⟩ rfl

/-! ### C4: the candle ordering invariant -/

/-- The claimed candle invariant, exact mode: `low` is a lower bound and
`high` an upper bound of `open`, `close` and each other. -/
def wfBigInt (cd : CandleDataBigInt) : Prop :=
  cd.low ≤ cd.«open» ∧ cd.low ≤ cd.close ∧ cd.low ≤ cd.high
    ∧ cd.«open» ≤ cd.high ∧ cd.close ≤ cd.high

/-- The claimed candle invariant, approximate mode. -/
def wfNumber (cd : CandleDataNumber) : Prop :=
  cd.low ≤ cd.«open» ∧ cd.low ≤ cd.close ∧ cd.low ≤ cd.high
    ∧ cd.«open» ≤ cd.high ∧ cd.close ≤ cd.high

/-- C4 counterexample: the aggregation copies each tick's fields into the
field-wise fold without any cross-field check, so a single tick whose raw
`Low` exceeds its raw `High` (here the spec's own Scenario B values:
open 100, high 110, low 120, close 90) yields a candle with
`low = 120 > high = 110`, refuting the invariant for arbitrary inputs. -/
theorem C4_counterexample_low_above_high :
    aggregateExactEntries [⟨"0", "100", "90", "110", "120", "7"⟩] 60
      = [(some 0, ⟨100, 110, 120, 90, 7⟩)]
    ∧ ¬ wfBigInt ⟨100, 110, 120, 90, 7⟩ := by
  constructor
  · decide
  · intro hwf
    exact absurd hwf.2.2.1 (by decide)

/-- C4 as amended: if every included tick is itself well-formed (its
parsed `low` is at most its `open`, `close` and `high`, and its `open`
and `close` are at most its `high`), then every emitted candle satisfies
`low ≤ open, close, high` and `high ≥ open, close, low`, in both
precision modes. -/
theorem C4_amended_candle_bounds (records : List CandleRecord) (w : Int) (hw : 0 < w)
    (hA : ∀ r ∈ records, ∀ t o h l c v, approxParsed r = some (t, o, h, l, c, v) →
      l ≤ o ∧ l ≤ c ∧ l ≤ h ∧ o ≤ h ∧ c ≤ h)
    (hE : ∀ r ∈ records, ∀ o h l c v, exactParsedOHLCV r = some (o, h, l, c, v) →
      l ≤ o ∧ l ≤ c ∧ l ≤ h ∧ o ≤ h ∧ c ≤ h) :
    (∀ cd ∈ aggregateApprox records w, wfNumber cd)
    ∧ (∀ p ∈ aggregateExactEntries records w, wfBigInt p.2) := by
  constructor
  · have hfold : ∀ p ∈ approxFold records w, wfNumber p.2 := by
      refine forall_approxFoldAux w records (fun _ cd => wfNumber cd) ?_ [] (by simp)
      intro r hr t o h l c v hp
      have ht := hA r hr t o h l c v hp
      constructor
      · exact ⟨ht.1, ht.2.1, ht.2.2.1, ht.2.2.2.1, ht.2.2.2.2⟩
      · intro cd hcd
        refine ⟨?_, ?_, ?_, ?_, ?_⟩
        · exact le_trans (min_le_left _ _) hcd.1
        · exact le_trans (min_le_right _ _) ht.2.1
        · exact le_trans (min_le_left _ _) (le_trans hcd.2.2.1 (le_max_left _ _))
        · exact le_trans hcd.2.2.2.1 (le_max_left _ _)
        · exact le_trans ht.2.2.2.2 (le_max_right _ _)
    intro cd hcd
    obtain ⟨p, hp, rfl⟩ := List.mem_map.1 hcd
    exact hfold p ((approxEmitted_perm records w).mem_iff.1 hp)
  · have hfold : ∀ p ∈ exactFold records w, wfBigInt p.2 := by
      refine forall_exactFoldAux w records (fun _ cd => wfBigInt cd) ?_ [] (by simp)
      intro r hr o h l c v hp
      have ht := hE r hr o h l c v hp
      constructor
      · exact ⟨ht.1, ht.2.1, ht.2.2.1, ht.2.2.2.1, ht.2.2.2.2⟩
      · intro cd hcd
        refine ⟨?_, ?_, ?_, ?_, ?_⟩
        · exact le_trans (min_le_left _ _) hcd.1
        · exact le_trans (min_le_right _ _) ht.2.1
        · exact le_trans (min_le_left _ _) (le_trans hcd.2.2.1 (le_max_left _ _))
        · exact le_trans hcd.2.2.2.1 (le_max_left _ _)
        · exact le_trans ht.2.2.2.2 (le_max_right _ _)
    intro p hp
    exact hfold p ((aggregateExactEntries_perm records w).mem_iff.1 hp)

/-- Witness for the amended C4: two well-formed ticks folded into one
bucket give the candle (open 1, high 9, low 1, close 9, volume 6), which
satisfies the amended invariant. -/
theorem C4_amended_candle_bounds_witness : wfBigInt ⟨1, 9, 1, 9, 6⟩ := by
  have hp1 : approxParsed ⟨"0", "1", "2", "3", "1", "4"⟩
      = some ((0 : Int), ((1 : Nat) : ℚ), ((3 : Nat) : ℚ), ((1 : Nat) : ℚ),
          ((2 : Nat) : ℚ), ((4 : Nat) : ℚ)) := by
    unfold approxParsed
    rw [show parseIntJS "0" = some 0 from by decide,
      parseFloatJS_digitsOnly "1" 1 (by decide),
      parseFloatJS_digitsOnly "3" 3 (by decide),
      parseFloatJS_digitsOnly "2" 2 (by decide),
      parseFloatJS_digitsOnly "4" 4 (by decide)]
  have hp2 : approxParsed ⟨"30", "9", "9", "9", "9", "2"⟩
      = some ((30 : Int), ((9 : Nat) : ℚ), ((9 : Nat) : ℚ), ((9 : Nat) : ℚ),
          ((9 : Nat) : ℚ), ((2 : Nat) : ℚ)) := by
    unfold approxParsed
    rw [show parseIntJS "30" = some 30 from by decide,
      parseFloatJS_digitsOnly "9" 9 (by decide),
      parseFloatJS_digitsOnly "2" 2 (by decide)]
  refine (C4_amended_candle_bounds
      [⟨"0", "1", "2", "3", "1", "4"⟩, ⟨"30", "9", "9", "9", "9", "2"⟩] 60
      (by decide) ?_ ?_).2 (some 0, ⟨1, 9, 1, 9, 6⟩) (by decide)
  · intro r hr t o h l c v hp
    rcases List.mem_cons.1 hr with rfl | hr
    · rw [hp1] at hp
      simp only [Option.some.injEq, Prod.mk.injEq] at hp
      obtain ⟨rfl, rfl, rfl, rfl, rfl, rfl⟩ := hp
      exact ⟨le_refl _, Nat.cast_le.mpr (by decide), Nat.cast_le.mpr (by decide),
        Nat.cast_le.mpr (by decide), Nat.cast_le.mpr (by decide)⟩
    rcases List.mem_cons.1 hr with rfl | hr
    · rw [hp2] at hp
      simp only [Option.some.injEq, Prod.mk.injEq] at hp
      obtain ⟨rfl, rfl, rfl, rfl, rfl, rfl⟩ := hp
      exact ⟨le_refl _, le_refl _, le_refl _, le_refl _, le_refl _⟩
    · exact absurd hr (List.not_mem_nil r)
  · intro r hr o h l c v hp
    rcases List.mem_cons.1 hr with rfl | hr
    · rw [show exactParsedOHLCV ⟨"0", "1", "2", "3", "1", "4"⟩
          = some ((1 : Int), 3, 1, 2, 4) from by decide] at hp
      simp only [Option.some.injEq, Prod.mk.injEq] at hp
      obtain ⟨rfl, rfl, rfl, rfl, rfl⟩ := hp
      exact ⟨by decide, by decide, by decide, by decide, by decide⟩
    rcases List.mem_cons.1 hr with rfl | hr
    · rw [show exactParsedOHLCV ⟨"30", "9", "9", "9", "9", "2"⟩
          = some ((9 : Int), 9, 9, 9, 2) from by decide] at hp
      simp only [Option.some.injEq, Prod.mk.injEq] at hp
      obtain ⟨rfl, rfl, rfl, rfl, rfl⟩ := hp
      exact ⟨by decide, by decide, by decide, by decide, by decide⟩
    · exact absurd hr (List.not_mem_nil r)

/-- C5 counterexample: in exact mode, a record whose timestamp does not
parse (`parseInt("abc") = NaN`) but whose OHLCV fields are valid integers
is NOT excluded: the bucket key computes to `NaN` and the record is
folded into (and emitted from) a `"NaN"`-keyed bucket.  The same record
is excluded in approximate mode (the `isNaN` check covers the
timestamp). -/
theorem C5_counterexample_nan_timestamp_not_excluded :
    aggregateExactEntries [⟨"abc", "1", "2", "3", "1", "4"⟩] 60
      = [(none, ⟨1, 3, 1, 2, 4⟩)]
    ∧ aggregateApprox [⟨"abc", "1", "2", "3", "1", "4"⟩] 60 = [] :=
  ⟨by decide, by decide⟩

/-- C5 as amended: in approximate mode a tick is excluded from
aggregation entirely as soon as any of its six parsed fields is `NaN`;
in exact mode a tick is excluded entirely when one of its five OHLCV
fields fails `BigInt` conversion, but a timestamp that fails `parseInt`
does not exclude the tick — it is folded into a `"NaN"`-keyed bucket
that is emitted alongside the integer-keyed candles. -/
theorem C5_amended_exclusion_rules :
    (∀ (w : Int) (xs ys : List CandleRecord) (r : CandleRecord), approxParsed r = none →
      aggregateApprox (xs ++ r :: ys) w = aggregateApprox (xs ++ ys) w)
    ∧ (∀ (w : Int) (xs ys : List CandleRecord) (r : CandleRecord), exactParsedOHLCV r = none →
      aggregateExactEntries (xs ++ r :: ys) w = aggregateExactEntries (xs ++ ys) w
      ∧ aggregateExact (xs ++ r :: ys) w = aggregateExact (xs ++ ys) w)
    ∧ (∀ (w : Int) (records : List CandleRecord) (r : CandleRecord),
      (exactParsedOHLCV r).isSome → parseIntJS r.unixTimestamp = none →
      none ∈ (aggregateExactEntries (r :: records) w).map Prod.fst) := by
  refine ⟨fun w xs ys r hr => approx_removable w xs ys r hr, ?_, ?_⟩
  · intro w xs ys r hr
    have he := exact_removable w xs ys r hr
    exact ⟨he, by unfold aggregateExact; rw [he]⟩
  · intro w records r hsome hts
    refine (mem_keys_aggregateExactEntries (r :: records) w none).2
      ⟨r, List.mem_cons_self _ _, hsome, ?_⟩
    unfold exactBucket
    rw [hts]
    rfl

/-- Witness for the amended C5: concrete instances of all three rules —
an approximate-mode exclusion, an exact-mode exclusion, and the
exact-mode `"NaN"`-bucket fold of a bad-timestamp record. -/
theorem C5_amended_exclusion_rules_witness :
    aggregateApprox ([] ++ ⟨"15", "x", "2", "3", "1", "4"⟩ :: [⟨"0", "1", "2", "3", "1", "4"⟩]) 60
      = aggregateApprox ([] ++ [⟨"0", "1", "2", "3", "1", "4"⟩]) 60
    ∧ aggregateExactEntries ([] ++ ⟨"15", "1.5", "2", "3", "1", "4"⟩ :: [⟨"0", "1", "2", "3", "1", "4"⟩]) 60
      = aggregateExactEntries ([] ++ [⟨"0", "1", "2", "3", "1", "4"⟩]) 60
    ∧ none ∈ (aggregateExactEntries
        (⟨"abc", "5", "6", "7", "4", "2"⟩ :: [⟨"0", "1", "2", "3", "1", "4"⟩]) 60).map Prod.fst :=
  ⟨C5_amended_exclusion_rules.1 60 [] [⟨"0", "1", "2", "3", "1", "4"⟩]
      ⟨"15", "x", "2", "3", "1", "4"⟩ (by decide),
   (C5_amended_exclusion_rules.2.1 60 [] [⟨"0", "1", "2", "3", "1", "4"⟩]
      ⟨"15", "1.5", "2", "3", "1", "4"⟩ (by decide)).1,
   C5_amended_exclusion_rules.2.2 60 [⟨"0", "1", "2", "3", "1", "4"⟩]
      ⟨"abc", "5", "6", "7", "4", "2"⟩ (by decide) (by decide)⟩

/-- C10: Scenario B — in exact mode a sole tick with open/high/low/close
strings "100"/"110"/"120"/"90" and volume "7" round-trips through
aggregation as exactly those literal strings (the `BigInt` values are
rendered back by `toString` with no loss). -/
theorem C10_exact_roundtrip_scenario_b :
    aggregateExact [⟨"0", "100", "90", "110", "120", "7"⟩] 60
      = [⟨some 0, "100", "110", "120", "90", "7"⟩] := by
  decide

/-- C9 counterexample: the request label `"constructor"` is outside the
enumerated vocabulary, yet `timeframeMap["constructor"]` finds the
inherited, truthy `Object.prototype.constructor`, so the
`!timeframeInSeconds` guard is bypassed and the handler proceeds: with a
failing CSV read the response is the 500 of the `catch` branch (so the
record read was attempted), and with a readable record the aggregation
runs with the non-numeric width and 500s on the `NaN` date rendering —
in no case the claimed 400 with the label list. -/
theorem C9_counterexample_prototype_label :
    apiCandles none "constructor" none
      = ApiResult.serverError "Error fetching candle data"
    ∧ apiCandles (some [⟨"0", "1", "2", "3", "1", "4"⟩]) "constructor" none
      = ApiResult.serverError "Error fetching candle data"
    ∧ apiCandles none "constructor" none
      ≠ ApiResult.badRequest "Invalid timeframe specified." timeframeKeys :=
  ⟨by decide, by decide, by decide⟩

/-- C9 as amended: for every label that is neither in the vocabulary nor
the name of an `Object.prototype` member, each endpoint returns its 400
error together with the enumerated labels, for every read outcome and
format query — so no record reading or aggregation is performed and the
label is not coerced to a default.  A label naming an inherited
`Object.prototype` member instead bypasses the guard entirely: no
endpoint returns the 400 for it, and the record read is performed (a
failing read surfaces as that endpoint's 500). -/
theorem C9_amended_unknown_timeframe :
    (∀ tf : String, timeframeLookup tf = .undefinedValue →
      ∀ (readResult : Option (List CandleRecord)) (formatQ : Option String),
        apiCandles readResult tf formatQ
          = ApiResult.badRequest "Invalid timeframe specified." timeframeKeys
        ∧ apiOhlc readResult tf formatQ
          = ApiResult.badRequest "Invalid timeframe." timeframeKeys
        ∧ apiVolume readResult tf formatQ
          = ApiResult.badRequest "Invalid timeframe." timeframeKeys)
    ∧ (∀ tf : String, timeframeLookup tf = .inherited →
      ∀ (readResult : Option (List CandleRecord)) (formatQ : Option String),
        apiCandles readResult tf formatQ
          ≠ ApiResult.badRequest "Invalid timeframe specified." timeframeKeys
        ∧ apiOhlc readResult tf formatQ
          ≠ ApiResult.badRequest "Invalid timeframe." timeframeKeys
        ∧ apiVolume readResult tf formatQ
          ≠ ApiResult.badRequest "Invalid timeframe." timeframeKeys
        ∧ (readResult = none →
            apiCandles readResult tf formatQ
              = ApiResult.serverError "Error fetching candle data"
            ∧ apiOhlc readResult tf formatQ
              = ApiResult.serverError "Error fetching OHLC data"
            ∧ apiVolume readResult tf formatQ
              = ApiResult.serverError "Error fetching volume data")) := by
  constructor
  · intro tf htf readResult formatQ
    refine ⟨?_, ?_, ?_⟩
    · unfold apiCandles
      rw [htf]
    · unfold apiOhlc
      rw [htf]
    · unfold apiVolume
      rw [htf]
  · intro tf htf readResult formatQ
    have hc : ∀ records, apiCandles (some records) tf formatQ =
        if nanWidthThrows records (formatQ = some "string") then
          ApiResult.serverError "Error fetching candle data"
        else ApiResult.ok [] := by
      intro records
      unfold apiCandles
      rw [htf]
    have ho : ∀ records, apiOhlc (some records) tf formatQ =
        if nanWidthThrows records (formatQ = some "string") then
          ApiResult.serverError "Error fetching OHLC data"
        else ApiResult.ok [] := by
      intro records
      unfold apiOhlc
      rw [htf]
    have hv : ∀ records, apiVolume (some records) tf formatQ =
        if nanWidthThrows records (formatQ = some "string") then
          ApiResult.serverError "Error fetching volume data"
        else ApiResult.ok [] := by
      intro records
      unfold apiVolume
      rw [htf]
    refine ⟨?_, ?_, ?_, ?_⟩
    · cases readResult with
      | none =>
        unfold apiCandles
        rw [htf]
        simp
      | some records =>
        rw [hc records]
        split <;> simp
    · cases readResult with
      | none =>
        unfold apiOhlc
        rw [htf]
        simp
      | some records =>
        rw [ho records]
        split <;> simp
    · cases readResult with
      | none =>
        unfold apiVolume
        rw [htf]
        simp
      | some records =>
        rw [hv records]
        split <;> simp
    · rintro rfl
      unfold apiCandles apiOhlc apiVolume
      rw [htf]
      exact ⟨rfl, rfl, rfl⟩

/-- Witness for the amended C9: the unknown label "7m" (not a prototype
member) gets the 400 with the full label list on all three endpoints,
while the prototype-member label "valueOf" bypasses the guard and
surfaces the failing read as a 500. -/
theorem C9_amended_unknown_timeframe_witness :
    apiCandles none "7m" none
      = ApiResult.badRequest "Invalid timeframe specified."
          ["1m", "5m", "15m", "30m", "45m", "1h", "2h", "3h", "4h", "5h",
           "6h", "12h", "15h", "18h", "1d"]
    ∧ apiOhlc none "7m" none
      = ApiResult.badRequest "Invalid timeframe."
          ["1m", "5m", "15m", "30m", "45m", "1h", "2h", "3h", "4h", "5h",
           "6h", "12h", "15h", "18h", "1d"]
    ∧ apiVolume none "7m" none
      = ApiResult.badRequest "Invalid timeframe."
          ["1m", "5m", "15m", "30m", "45m", "1h", "2h", "3h", "4h", "5h",
           "6h", "12h", "15h", "18h", "1d"]
    ∧ apiCandles none "valueOf" none = ApiResult.serverError "Error fetching candle data" := by
  have h := C9_amended_unknown_timeframe.1 "7m" (by decide) none none
  have h2 := (C9_amended_unknown_timeframe.2 "valueOf" (by decide) none none).2.2.2 rfl
  exact ⟨h.1, h.2.1, h.2.2, h2.1⟩

/-! ### Lemmas about the collector -/

theorem collectFrom_length (src : ChainSource) :
    ∀ (is : List Nat) (st : RunState), (collectFrom src st is).1.length = is.length := by
  intro is
  induction is with
  | nil => intro st; rfl
  | cons i rest ih =>
    intro st
    simp only [collectFrom, List.length_cons]
    rw [ih]

/-- The row pushed by a step carries the post-step total as its snapshot. -/
theorem collectStep_row_total (src : ChainSource) (st : RunState) (i : Nat) :
    (collectStep src st i).2.cumulativeTotalVolume
      = (collectStep src st i).1.cumulativeTotalVolume := by
  cases hv : src.tVol (src.txTimeStamp i) <;> simp [collectStep, hv]

/-- Each step can only increase the all-time total. -/
theorem collectStep_total_mono (src : ChainSource) (st : RunState) (i : Nat) :
    st.cumulativeTotalVolume ≤ (collectStep src st i).1.cumulativeTotalVolume := by
  cases hv : src.tVol (src.txTimeStamp i)
  · simp [collectStep, hv]
  · simp only [collectStep, hv]
    split <;> exact Nat.le_add_right _ _

theorem chain_total_collectFrom (src : ChainSource) :
    ∀ (is : List Nat) (st : RunState),
      List.Chain' (· ≤ ·) (st.cumulativeTotalVolume ::
        ((collectFrom src st is).1.map (fun r => r.cumulativeTotalVolume))) := by
  intro is
  induction is with
  | nil => intro st; simp [collectFrom]
  | cons i rest ih =>
    intro st
    simp only [collectFrom, List.map_cons]
    rw [List.chain'_cons, collectStep_row_total]
    exact ⟨collectStep_total_mono src st i, ih (collectStep src st i).1⟩

/-- C7: a failed volume lookup is non-fatal.  The collection pass always
emits one row per transaction index (no abort), and a step whose `tVol`
fetch fails leaves the running state untouched while still emitting the
tick's row: index, timestamp, the four candle fields, the explicit
unavailable marker, its UTC date and the (unchanged) accumulator
snapshots. -/
theorem C7_volume_failure_nonfatal (src : ChainSource) :
    (collectTicks src).1.length = src.totalTx
    ∧ ∀ (st : RunState) (i : Nat), src.tVol (src.txTimeStamp i) = none →
      (collectStep src st i).1 = st
      ∧ (collectStep src st i).2 =
          ⟨i, src.txTimeStamp i, (src.candleStickData (src.txTimeStamp i)).«open»,
            (src.candleStickData (src.txTimeStamp i)).close,
            (src.candleStickData (src.txTimeStamp i)).high,
            (src.candleStickData (src.txTimeStamp i)).low,
            none, utcDay (src.txTimeStamp i),
            st.currentDayCumulativeVolume, st.cumulativeTotalVolume⟩ := by
  constructor
  · unfold collectTicks
    rw [collectFrom_length]
    simp
  · intro st i hv
    simp [collectStep, hv]

def srcW7 : ChainSource := ⟨1, fun _ => 5, fun _ => ⟨5, 1, 2, 3, 1⟩, fun _ => none⟩

/-- Witness for C7: a source whose single volume lookup fails still
yields one emitted row, with the unavailable marker, the candle fields
and zero accumulator snapshots, and the state is unchanged. -/
theorem C7_volume_failure_nonfatal_witness :
    (collectTicks srcW7).1.length = 1
    ∧ (collectStep srcW7 initialRunState 1).1 = initialRunState
    ∧ (collectStep srcW7 initialRunState 1).2 = ⟨1, 5, 1, 2, 3, 1, none, 0, 0, 0⟩ := by
  have h := C7_volume_failure_nonfatal srcW7
  have h2 := h.2 initialRunState 1 rfl
  refine ⟨h.1, h2.1, ?_⟩
  rw [h2.2]
  decide

def srcC6 : ChainSource := ⟨2, fun i => (i - 1) * 86400, fun _ => ⟨0, 1, 2, 3, 1⟩,
  fun ts => if ts = 0 then some 10 else none⟩

/-- C6 counterexample: two ticks on consecutive UTC days, the first with
volume 10 and the second with a failed volume lookup.  The second step
changes the UTC date and its volume is unavailable, yet the daily
cumulative accumulator is NOT reset to zero — the `catch` branch skips
the day-change check entirely, so the emitted snapshot stays 10. -/
theorem C6_counterexample_no_reset_on_failed_lookup :
    (collectTicks srcC6).1.map (fun r => r.utcDate) = [0, 1]
    ∧ (collectTicks srcC6).1.map (fun r => r.tVol) = [some 10, none]
    ∧ (collectTicks srcC6).1.map (fun r => r.cumulativeDailyVolume) = [10, 10] :=
  ⟨by decide, by decide, by decide⟩

/-- C6 as amended: across a collection pass the all-time cumulative
volume snapshots are non-decreasing in index order; the daily cumulative
accumulator is reset — to the current tick's own volume — exactly at
steps whose volume lookup succeeds and whose UTC date differs from the
tracked current day (the date of the most recent tick with a successful
lookup, `currentDay`); a step with a successful lookup on the same
tracked day adds its volume instead; and a step whose volume lookup
fails leaves the whole running state (both accumulators and the tracked
day) unchanged, performing no reset even if its UTC date differs from
the previous tick's. -/
theorem C6_amended_running_totals (src : ChainSource) :
    List.Chain' (· ≤ ·) ((collectTicks src).1.map (fun r => r.cumulativeTotalVolume))
    ∧ ∀ (st : RunState) (i : Nat),
      (src.tVol (src.txTimeStamp i) = none → (collectStep src st i).1 = st)
      ∧ (∀ v, src.tVol (src.txTimeStamp i) = some v →
          st.currentDay ≠ some (utcDay (src.txTimeStamp i)) →
          (collectStep src st i).1.currentDayCumulativeVolume = v
          ∧ (collectStep src st i).1.currentDay = some (utcDay (src.txTimeStamp i)))
      ∧ (∀ v, src.tVol (src.txTimeStamp i) = some v →
          st.currentDay = some (utcDay (src.txTimeStamp i)) →
          (collectStep src st i).1.currentDayCumulativeVolume
            = st.currentDayCumulativeVolume + v
          ∧ (collectStep src st i).1.currentDay = st.currentDay) := by
  constructor
  · exact (chain_total_collectFrom src _ initialRunState).tail
  · intro st i
    refine ⟨fun hv => by simp [collectStep, hv], ?_, ?_⟩
    · intro v hv hd
      simp only [collectStep, hv]
      rw [if_pos hd]
      exact ⟨by simp, rfl⟩
    · intro v hv hd
      simp only [collectStep, hv]
      rw [if_neg (not_not_intro hd)]
      exact ⟨rfl, rfl⟩

def srcW6 : ChainSource := ⟨2, fun i => i * 86400, fun ts => ⟨ts, 1, 2, 3, 1⟩,
  fun ts => if ts = 86400 then some 5 else some 7⟩

/-- Witness for the amended C6: a concrete two-tick source; the total
snapshots are non-decreasing and the first step (a fresh day with volume
5) resets the daily accumulator to exactly 5. -/
theorem C6_amended_running_totals_witness :
    List.Chain' (· ≤ ·) ((collectTicks srcW6).1.map (fun r => r.cumulativeTotalVolume))
    ∧ (collectStep srcW6 initialRunState 1).1.currentDayCumulativeVolume = 5 := by
  have h := C6_amended_running_totals srcW6
  exact ⟨h.1, ((h.2 initialRunState 1).2.1 5 (by decide) (by decide)).1⟩

/-! ### C8: finalized daily totals -/

theorem dailySum_cons (r : TickRow) (rest : List TickRow) (d : Nat) :
    dailySum (r :: rest) d
      = (if r.utcDate = d then r.tVol.getD 0 else 0) + dailySum rest d := by
  unfold dailySum
  by_cases hd : r.utcDate = d
  · rw [if_pos hd, List.filter_cons_of_pos (by simp [hd])]
    cases hv : r.tVol
    · simp [List.filterMap_cons, hv]
    · simp [List.filterMap_cons, hv]
  · rw [if_neg hd, List.filter_cons_of_neg (by simp [hd])]
    simp

theorem getD_dailyStep (m : List (Nat × Nat)) (r : TickRow) (d : Nat) :
    (alLookup (dailyStep m r) d).getD 0
      = (alLookup m d).getD 0 + (if r.utcDate = d then r.tVol.getD 0 else 0) := by
  cases hv : r.tVol with
  | none => simp [dailyStep, hv]
  | some v =>
    simp only [dailyStep, hv]
    by_cases hd : r.utcDate = d
    · rw [if_pos hd, hd, alLookup_alUpdate_self]
      cases alLookup m d
      · simp
      · simp [Nat.add_comm]
    · rw [if_neg hd, alLookup_alUpdate_other _ _ _ _ d (fun h => hd h.symm)]
      simp

theorem getD_dailyFoldAux (rows : List TickRow) :
    ∀ (m : List (Nat × Nat)) (d : Nat),
      (alLookup (rows.foldl dailyStep m) d).getD 0
        = (alLookup m d).getD 0 + dailySum rows d := by
  induction rows with
  | nil =>
    intro m d
    simp [dailySum]
  | cons r rest ih =>
    intro m d
    rw [List.foldl_cons, dailySum_cons, ih, getD_dailyStep]
    rw [Nat.add_assoc]

theorem fetchData_eq (src : ChainSource) :
    fetchData src = ((collectTicks src).1).map
      (fun r => (r, (alLookup (dailyVolumeMap (collectTicks src).1) r.utcDate).getD 0)) := rfl

/-- C8: the finalized daily total attached to every emitted tick equals
the order-independent sum of the valid volumes of all ticks sharing its
UTC date, computed from the second-pass `dailyVolumeMap` over the
completed tick set; hence any two ticks of the same UTC date carry the
same finalized total, wherever they sit inside the day. -/
theorem C8_finalized_daily_totals (src : ChainSource) (p : TickRow × Nat)
    (hp : p ∈ fetchData src) :
    p.2 = dailySum (collectTicks src).1 p.1.utcDate
    ∧ ∀ q ∈ fetchData src, q.1.utcDate = p.1.utcDate → q.2 = p.2 := by
  have key : ∀ d, (alLookup (dailyVolumeMap (collectTicks src).1) d).getD 0
      = dailySum (collectTicks src).1 d := by
    intro d
    unfold dailyVolumeMap
    rw [getD_dailyFoldAux]
    simp [alLookup]
  rw [fetchData_eq] at hp
  obtain ⟨r, hr, rfl⟩ := List.mem_map.1 hp
  constructor
  · exact key r.utcDate
  · intro q hq hdq
    rw [fetchData_eq] at hq
    obtain ⟨r', hr', rfl⟩ := List.mem_map.1 hq
    simp only at hdq ⊢
    rw [key r'.utcDate, key r.utcDate, hdq]

def srcW8 : ChainSource := ⟨3, fun i => (i - 1) * 43200, fun ts => ⟨ts, 1, 2, 3, 1⟩,
  fun ts => if ts = 0 then some 5 else if ts = 43200 then some 7 else none⟩

/-- Witness for C8: three ticks — two on day 0 with volumes 5 and 7, one
on day 1 with a failed lookup; the first emitted pair carries daily
total 12 = 5 + 7. -/
theorem C8_finalized_daily_totals_witness :
    dailySum (collectTicks srcW8).1 0 = 12
    ∧ ((⟨1, 0, 1, 2, 3, 1, some 5, 0, 5, 5⟩ : TickRow), (12 : Nat)).2
        = dailySum (collectTicks srcW8).1
            ((⟨1, 0, 1, 2, 3, 1, some 5, 0, 5, 5⟩ : TickRow), (12 : Nat)).1.utcDate := by
  refine ⟨by decide, ?_⟩
  exact (C8_finalized_daily_totals srcW8 (⟨1, 0, 1, 2, 3, 1, some 5, 0, 5, 5⟩, 12)
    (by decide)).1
